import Mathlib

/-!
# Verification of the Uniswap router-sdk core

A shallow embedding of the router-sdk data model and algorithms, together
with theorems settling the behavioural claims about them:

* tokens, currencies, the two pool variants (`Pair` from v2, `Pool` from v3),
  and exact-fraction prices (`src/entities/mixedRoute/route.ts`);
* the validated `MixedRouteSDK` route constructor and its memoized
  `midPrice` accessor (`src/entities/mixedRoute/route.ts`);
* the mixed-route segmenter (`src/utils/index.ts`,
  `divideMixedRouteIntoConsecutiveSections`);
* the packed-path encoder (`src/utils/encodeMixedRouteToPath.ts`);
* the execution-plan compiler (`SwapRouter.encodeSwaps`,
  `SwapRouter.encodeMixedRouteSwap`);
* the aggregated `Trade` slippage accessors (`worstExecutionPrice`,
  `minimumAmountOut`), whose implementation file is not part of the sources
  at hand and is therefore modelled from the specification and pinned by the
  expectations of `src/entities/trade.test.ts`.

Amounts are arbitrary-precision integers (`Nat`), matching the JSBI
arithmetic of the source; division truncates toward zero, as `Fraction
.quotient` does.
-/

namespace RouterSdk

/-- A token: identified by `(chainId, address)`; `Token.equals` in sdk-core
compares exactly these two fields.  The address is modelled as a number. -/
structure Token where
  chainId : Nat
  address : Nat
  deriving DecidableEq, Repr

/-- sdk-core `Token.equals`: same chain and same address. -/
def Token.equals (a b : Token) : Bool :=
  a.chainId == b.chainId && a.address == b.address

/-- A currency is a native asset or a token.  A native asset knows its
wrapped token (sdk-core: `Ether.onChain(c).wrapped = WETH9[c]`). -/
inductive Currency where
  | native (weth : Token)
  | token (t : Token)
  deriving DecidableEq, Repr

/-- sdk-core `currency.wrapped`. -/
def Currency.wrapped : Currency → Token
  | .native w => w
  | .token t => t

/-- sdk-core `currency.isNative`. -/
def Currency.isNative : Currency → Bool
  | .native _ => true
  | .token _ => false

/-- sdk-core `currency.isToken`. -/
def Currency.isToken : Currency → Bool
  | .native _ => false
  | .token _ => true

/-- The two recognized pool variants:
`pair` is a v2 constant-product `Pair` (two reserves);
`pool` is a v3 concentrated-liquidity `Pool` (fee tier and sqrt price,
the only fields the routing layer reads). -/
inductive TPool where
  | pair (token0 token1 : Token) (reserve0 reserve1 : Nat)
  | pool (token0 token1 : Token) (fee : Nat) (sqrtRatioX96 : Nat)
  deriving DecidableEq, Repr

def TPool.token0 : TPool → Token
  | .pair t0 _ _ _ => t0
  | .pool t0 _ _ _ => t0

def TPool.token1 : TPool → Token
  | .pair _ t1 _ _ => t1
  | .pool _ t1 _ _ => t1

/-- Both SDKs define `chainId` as `token0.chainId`. -/
def TPool.chainId (p : TPool) : Nat := p.token0.chainId

/-- The membership test `involvesToken` in both the v2 and v3 SDK:
`token.equals(token0) || token.equals(token1)`. -/
def TPool.involvesToken (p : TPool) (t : Token) : Bool :=
  t.equals p.token0 || t.equals p.token1

/-- The dispatch `pool instanceof Pool` used by the segmenter and the
path encoder. -/
def TPool.isPool : TPool → Bool
  | .pool _ _ _ _ => true
  | .pair _ _ _ _ => false

/-- sdk-core `Price`: a fraction of `numerator / denominator` quote units
per base unit, built as `new Price(base, quote, denominator, numerator)`. -/
structure Price where
  baseCurrency : Currency
  quoteCurrency : Currency
  denominator : Nat
  numerator : Nat
  deriving DecidableEq, Repr

/-- sdk-core `Price.multiply`: multiply the underlying fractions, keep
this price's base and the other's quote. -/
def Price.multiply (a b : Price) : Price :=
  { baseCurrency := a.baseCurrency
    quoteCurrency := b.quoteCurrency
    denominator := a.denominator * b.denominator
    numerator := a.numerator * b.numerator }

/-- The structural failure modes of route construction, in the order the
constructor of `MixedRouteSDK` checks them (`invariant` messages `POOLS`,
`CHAIN_IDS`, `INPUT`, `OUTPUT`, `PATH`). -/
inductive RouteError where
  | emptyRoute
  | chainMismatch
  | inputNotInFirstPool
  | outputNotInLastPool
  | discontinuousPath
  deriving DecidableEq, Repr

/-- A validated mixed route (`MixedRouteSDK`): the ordered pools, the
derived token path, the boundary currencies and the `_midPrice`
memoization cell (`null` on construction). -/
structure MixedRouteSDK where
  pools : List TPool
  path : List Token
  input : Currency
  output : Currency
  midPriceCache : Option Price
  deriving DecidableEq, Repr

/-- The token-path construction loop of the `MixedRouteSDK` constructor:
starting from the wrapped input, each pool must involve the running token
(`invariant(..., 'PATH')`), and the walk advances to the complementary
token.  Returns `none` where the source throws `PATH`. -/
def buildTokenPath (current : Token) : List TPool → Option (List Token)
  | [] => some [current]
  | p :: rest =>
    if current.equals p.token0 then
      (buildTokenPath p.token1 rest).map (current :: ·)
    else if current.equals p.token1 then
      (buildTokenPath p.token0 rest).map (current :: ·)
    else
      none

/-- The `MixedRouteSDK` constructor (`src/entities/mixedRoute/route.ts`):
checks, in order, that `pools` is non-empty (`POOLS`), that all pools share
`pools[0].chainId` (`CHAIN_IDS`), that the first pool involves the wrapped
input (`INPUT`), that the last pool involves the wrapped output (`OUTPUT`),
and that the path chains (`PATH`); on success stores the pools, the walked
token path, the boundary currencies, and an empty mid-price cache. -/
def MixedRouteSDK.new (pools : List TPool) (input output : Currency) :
    Except RouteError MixedRouteSDK :=
  match pools with
  | [] => .error .emptyRoute
  | p0 :: rest =>
    let chainId := p0.chainId
    if ¬ (p0 :: rest).all (fun p => p.chainId == chainId) then
      .error .chainMismatch
    else
      let wrappedInput := input.wrapped
      if ¬ p0.involvesToken wrappedInput then
        .error .inputNotInFirstPool
      else if ¬ (rest.getLastD p0).involvesToken output.wrapped then
        .error .outputNotInLastPool
      else
        match buildTokenPath wrappedInput (p0 :: rest) with
        | none => .error .discontinuousPath
        | some tokenPath => .ok ⟨p0 :: rest, tokenPath, input, output, none⟩

lemma getLast?_cons_eq_getLastD (p0 : TPool) (rest : List TPool) :
    (p0 :: rest).getLast? = some (rest.getLastD p0) := by
  induction rest generalizing p0 with
  | nil => rfl
  | cons q qs ih => rw [List.getLastD_cons]; exact ih q

lemma all_chainId_iff (p0 : TPool) (rest : List TPool) :
    ((p0 :: rest).all (fun p => p.chainId == p0.chainId) = true) ↔
      ∀ p ∈ p0 :: rest, ∀ q ∈ p0 :: rest, p.chainId = q.chainId := by
  simp only [List.all_eq_true, beq_iff_eq]
  constructor
  · intro h p hp q hq
    rw [h p hp, h q hq]
  · intro h p hp
    exact h p hp p0 (List.mem_cons_self _ _)

/-- C5.  Route construction fails with `EmptyRoute` exactly when `pools` is
empty; with `ChainMismatch` when the pools span multiple chain identifiers;
with `InputNotInFirstPool` when (the earlier checks passing) the wrapped
input currency is not involved in the first pool; with `OutputNotInLastPool`
when the wrapped output currency is not involved in the last pool; and with
`DiscontinuousPath` when, replaying from the wrapped input, some pool does
not involve the running token (`buildTokenPath` fails); when none of these
conditions hold, construction succeeds. -/
theorem mixedRouteSDK_new_errors (pools : List TPool) (input output : Currency) :
    (MixedRouteSDK.new pools input output = .error .emptyRoute ↔ pools = [])
    ∧ (MixedRouteSDK.new pools input output = .error .chainMismatch ↔
        ∃ p ∈ pools, ∃ q ∈ pools, p.chainId ≠ q.chainId)
    ∧ (MixedRouteSDK.new pools input output = .error .inputNotInFirstPool ↔
        pools ≠ [] ∧ (∀ p ∈ pools, ∀ q ∈ pools, p.chainId = q.chainId)
          ∧ ∀ p0 ∈ pools.head?, p0.involvesToken input.wrapped = false)
    ∧ (MixedRouteSDK.new pools input output = .error .outputNotInLastPool ↔
        pools ≠ [] ∧ (∀ p ∈ pools, ∀ q ∈ pools, p.chainId = q.chainId)
          ∧ (∀ p0 ∈ pools.head?, p0.involvesToken input.wrapped = true)
          ∧ ∀ pl ∈ pools.getLast?, pl.involvesToken output.wrapped = false)
    ∧ (MixedRouteSDK.new pools input output = .error .discontinuousPath ↔
        pools ≠ [] ∧ (∀ p ∈ pools, ∀ q ∈ pools, p.chainId = q.chainId)
          ∧ (∀ p0 ∈ pools.head?, p0.involvesToken input.wrapped = true)
          ∧ (∀ pl ∈ pools.getLast?, pl.involvesToken output.wrapped = true)
          ∧ buildTokenPath input.wrapped pools = none)
    ∧ ((∃ r, MixedRouteSDK.new pools input output = .ok r) ↔
        pools ≠ [] ∧ (∀ p ∈ pools, ∀ q ∈ pools, p.chainId = q.chainId)
          ∧ (∀ p0 ∈ pools.head?, p0.involvesToken input.wrapped = true)
          ∧ (∀ pl ∈ pools.getLast?, pl.involvesToken output.wrapped = true)
          ∧ ∃ tp, buildTokenPath input.wrapped pools = some tp) := by
  cases pools with
  | nil =>
    refine ⟨by simp [MixedRouteSDK.new], by simp [MixedRouteSDK.new], ?_, ?_, ?_, ?_⟩ <;>
      simp [MixedRouteSDK.new]
  | cons p0 rest =>
    by_cases hchain : ((p0 :: rest).all (fun p => p.chainId == p0.chainId) = true)
    · have hsame := (all_chainId_iff p0 rest).mp hchain
      by_cases hin : p0.involvesToken input.wrapped = true
      · by_cases hout : (rest.getLastD p0).involvesToken output.wrapped = true
        · cases hpath : buildTokenPath input.wrapped (p0 :: rest) with
          | none =>
            refine ⟨?_, ?_, ?_, ?_, ?_, ?_⟩ <;>
              simp_all [MixedRouteSDK.new, getLast?_cons_eq_getLastD]
          | some tp =>
            refine ⟨?_, ?_, ?_, ?_, ?_, ?_⟩ <;>
              simp_all [MixedRouteSDK.new, getLast?_cons_eq_getLastD]
        · refine ⟨?_, ?_, ?_, ?_, ?_, ?_⟩ <;>
            simp_all [MixedRouteSDK.new, getLast?_cons_eq_getLastD]
      · refine ⟨?_, ?_, ?_, ?_, ?_, ?_⟩ <;>
          simp_all [MixedRouteSDK.new, getLast?_cons_eq_getLastD]
    · have hdiff : ∃ p ∈ p0 :: rest, ∃ q ∈ p0 :: rest, p.chainId ≠ q.chainId := by
        by_contra hc
        exact hchain ((all_chainId_iff p0 rest).mpr (by push_neg at hc; exact hc))
      have hnsame : ¬ (∀ p ∈ p0 :: rest, ∀ q ∈ p0 :: rest, p.chainId = q.chainId) :=
        fun h => hchain ((all_chainId_iff p0 rest).mpr h)
      refine ⟨?_, ?_, ?_, ?_, ?_, ?_⟩ <;>
        simp_all [MixedRouteSDK.new]
      all_goals
        obtain ⟨x, hx, hne⟩ := hchain
        intro hall
        exact (hne (hall x hx).symm).elim

/-- The segmenter `divideMixedRouteIntoConsecutiveSections` (`src/utils/index.ts`): scan
the pool sequence left to right; the current section extends while the next
pool has the same `instanceof Pool` dispatch as the pool that opened the
section (both branches of the source's nested `while` loops collect a
maximal run of one variant), then the section is pushed and a new one
starts.  `divideGo` carries the open section's variant and its pools in
reverse push order; `divideSections` is the loop over the pool list. -/
def divideGo (variant : Bool) (cur : List TPool) : List TPool → List (List TPool)
  | [] => [cur.reverse]
  | p :: rest =>
    if p.isPool == variant then divideGo variant (p :: cur) rest
    else cur.reverse :: divideGo p.isPool [p] rest

def divideSections : List TPool → List (List TPool)
  | [] => []
  | p :: rest => divideGo p.isPool [p] rest

/-- The exported segmenter reads the route's pool sequence. -/
def divideMixedRouteIntoConsecutiveSections (route : MixedRouteSDK) : List (List TPool) :=
  divideSections route.pools

lemma divideGo_spec (l : List TPool) :
    ∀ (variant : Bool) (cur : List TPool), cur ≠ [] →
      (∀ a ∈ cur, a.isPool = variant) →
      (∀ s ∈ divideGo variant cur l, s ≠ [])
      ∧ (∀ s ∈ divideGo variant cur l, ∀ a ∈ s, ∀ b ∈ s, a.isPool = b.isPool)
      ∧ List.Chain' (fun s t => ∀ a ∈ s, ∀ b ∈ t, a.isPool ≠ b.isPool)
          (divideGo variant cur l)
      ∧ (divideGo variant cur l).flatten = cur.reverse ++ l
      ∧ (∀ s ∈ (divideGo variant cur l).head?, ∀ a ∈ s, a.isPool = variant) := by
  induction l with
  | nil =>
    intro variant cur hne hvar
    refine ⟨?_, ?_, ?_, ?_, ?_⟩
    · intro s hs
      rw [List.mem_singleton.mp hs]
      simpa using hne
    · intro s hs a ha b hb
      rw [List.mem_singleton.mp hs] at ha hb
      rw [hvar a (List.mem_reverse.mp ha), hvar b (List.mem_reverse.mp hb)]
    · simp [divideGo]
    · simp [divideGo]
    · intro s hs a ha
      simp only [divideGo, List.head?_cons, Option.mem_some_iff] at hs
      rw [← hs] at ha
      exact hvar a (List.mem_reverse.mp ha)
  | cons p rest ih =>
    intro variant cur hne hvar
    by_cases hp : p.isPool = variant
    · have hstep := ih variant (p :: cur) (by simp)
        (by intro a ha
            rcases List.mem_cons.mp ha with h | h
            · rw [h, hp]
            · exact hvar a h)
      obtain ⟨h1, h2, h3, h4, h5⟩ := hstep
      rw [show divideGo variant cur (p :: rest)
            = divideGo variant (p :: cur) rest by
          simp [divideGo, hp]]
      refine ⟨h1, h2, h3, ?_, h5⟩
      rw [h4]
      simp
    · have hstep := ih p.isPool [p] (by simp) (by simp)
      obtain ⟨h1, h2, h3, h4, h5⟩ := hstep
      rw [show divideGo variant cur (p :: rest)
            = cur.reverse :: divideGo p.isPool [p] rest by
          simp [divideGo, hp]]
      have hcurvar : ∀ a ∈ cur.reverse, a.isPool = variant := by
        intro a ha
        exact hvar a (List.mem_reverse.mp ha)
      refine ⟨?_, ?_, ?_, ?_, ?_⟩
      · intro s hs
        rcases List.mem_cons.mp hs with h | h
        · rw [h]; simpa using hne
        · exact h1 s h
      · intro s hs a ha b hb
        rcases List.mem_cons.mp hs with h | h
        · rw [h] at ha hb
          rw [hcurvar a ha, hcurvar b hb]
        · exact h2 s h a ha b hb
      · rw [List.chain'_cons']
        refine ⟨?_, h3⟩
        intro t ht a ha b hb
        have hb' := h5 t ht b hb
        rw [hcurvar a ha, hb']
        exact fun hc => hp hc.symm
      · simp only [List.flatten_cons, h4]
        simp
      · intro s hs a ha
        simp only [List.head?_cons, Option.mem_some_iff] at hs
        rw [← hs] at ha
        exact hcurvar a ha

/-- C3.  For every mixed route over the two recognized pool variants, the
segmenter returns a list of non-empty segments such that all pools within
each segment share one pricing-model variant, adjacent segments have
different variants, and concatenating all segments' pools in order
reproduces the original route's pool sequence exactly. -/
theorem divideMixedRoute_sections_spec (route : MixedRouteSDK) :
    (∀ s ∈ divideMixedRouteIntoConsecutiveSections route, s ≠ [])
    ∧ (∀ s ∈ divideMixedRouteIntoConsecutiveSections route,
        ∀ a ∈ s, ∀ b ∈ s, a.isPool = b.isPool)
    ∧ List.Chain' (fun s t => ∀ a ∈ s, ∀ b ∈ t, a.isPool ≠ b.isPool)
        (divideMixedRouteIntoConsecutiveSections route)
    ∧ (divideMixedRouteIntoConsecutiveSections route).flatten = route.pools := by
  unfold divideMixedRouteIntoConsecutiveSections divideSections
  cases hp : route.pools with
  | nil => refine ⟨by simp, by simp, by simp, by simp⟩
  | cons p rest =>
    obtain ⟨h1, h2, h3, h4, _⟩ := divideGo_spec rest p.isPool [p] (by simp) (by simp)
    exact ⟨h1, h2, h3, by rw [h4]; simp⟩

/-- The constant `V2_FEE_PATH_PLACEHOLDER` (`src/constants.ts`, not among the given
sources).  Modelled from the spec: a fixed out-of-range sentinel
fee-position value inserted for a constant-product hop, carrying no pricing
meaning; the repository uses `0x800000`. -/
def V2_FEE_PATH_PLACEHOLDER : Nat := 8388608

/-- One element of the packed path: a token address (`address` in the
packed types) or a fee-or-placeholder value (`uint24`). -/
inductive PathComponent where
  | addr (a : Nat)
  | fee (f : Nat)
  deriving DecidableEq, Repr

/-- The fee slot written for one hop:
`pool instanceof Pool ? pool.fee : V2_FEE_PATH_PLACEHOLDER`. -/
def TPool.pathFee : TPool → Nat
  | .pool _ _ f _ => f
  | .pair _ _ _ _ => V2_FEE_PATH_PLACEHOLDER

/-- The per-pool step of the `reduce` in `encodeMixedRouteToPath`: each
pool appends its fee slot and the output token's address, the running input
advancing to the complementary token
(`outputToken = pool.token0.equals(inputToken) ? pool.token1 : pool.token0`). -/
def buildPathFrom (inputToken : Token) : List TPool → List PathComponent
  | [] => []
  | pool :: rest =>
    let outputToken := if pool.token0.equals inputToken then pool.token1 else pool.token0
    .fee pool.pathFee :: .addr outputToken.address :: buildPathFrom outputToken rest

/-- The encoder `encodeMixedRouteToPath` (`src/utils/encodeMixedRouteToPath.ts`): the
`reduce` over `route.pools` produces the alternating address/fee/…/address
sequence starting from the wrapped input's address (the `index === 0` arm
also writes the input address; an empty pool list leaves the initial empty
path), and for `exactOutput` the whole sequence is reversed before
packing. -/
def encodeMixedRouteToPath (route : MixedRouteSDK) (exactOutput : Bool) :
    List PathComponent :=
  let firstInputToken := route.input.wrapped
  let path : List PathComponent :=
    match route.pools with
    | [] => []
    | _ :: _ => .addr firstInputToken.address :: buildPathFrom firstInputToken route.pools
  if exactOutput then path.reverse else path

/-- The token sequence the encoder walks: the wrapped input followed by the
complementary token of each successive pool. -/
def walkTokens (t : Token) : List TPool → List Token
  | [] => [t]
  | pool :: rest =>
    t :: walkTokens (if pool.token0.equals t then pool.token1 else pool.token0) rest

/-- Interleaving a token sequence with a fee/placeholder sequence into the
alternating packed-path shape. -/
def interleavePath : List Token → List Nat → List PathComponent
  | [], _ => []
  | t :: _, [] => [.addr t.address]
  | t :: ts, f :: fs => .addr t.address :: .fee f :: interleavePath ts fs

lemma buildPathFrom_eq_interleave (t : Token) (pools : List TPool) :
    PathComponent.addr t.address :: buildPathFrom t pools
      = interleavePath (walkTokens t pools) (pools.map TPool.pathFee) := by
  induction pools generalizing t with
  | nil => rfl
  | cons p rest ih =>
    simp only [buildPathFrom, walkTokens, List.map_cons, interleavePath]
    rw [← ih]

lemma walkTokens_length (t : Token) (pools : List TPool) :
    (walkTokens t pools).length = pools.length + 1 := by
  induction pools generalizing t with
  | nil => rfl
  | cons p rest ih => simp [walkTokens, ih]

lemma interleave_append_last (t : Token) (f : Nat) :
    ∀ (bs : List Nat) (as : List Token), as.length = bs.length + 1 →
      interleavePath (as ++ [t]) (bs ++ [f])
        = interleavePath as bs ++ [.fee f, .addr t.address] := by
  intro bs
  induction bs with
  | nil =>
    intro as h
    match as, h with
    | [a], _ => rfl
  | cons b bs' ih =>
    intro as h
    match as, h with
    | a :: as', h =>
      simp only [List.length_cons, Nat.add_right_cancel_iff] at h
      simp only [List.cons_append, interleavePath, List.append_eq]
      rw [ih as' h]

lemma interleave_reverse :
    ∀ (fs : List Nat) (ts : List Token), ts.length = fs.length + 1 →
      (interleavePath ts fs).reverse = interleavePath ts.reverse fs.reverse := by
  intro fs
  induction fs with
  | nil =>
    intro ts h
    match ts, h with
    | [t], _ => rfl
  | cons f fs' ih =>
    intro ts h
    match ts, h with
    | t :: ts', h =>
      simp only [List.length_cons, Nat.add_right_cancel_iff] at h
      simp only [interleavePath, List.reverse_cons]
      rw [ih ts' h, interleave_append_last t f fs'.reverse ts'.reverse (by simp [h])]
      simp

/-- C4.  For every route of at least one hop: the ExactInput encoding is
the interleaving of the walked token sequence with the fee/placeholder
sequence, and interleaving the reversed token sequence with the reversed
fee sequence yields exactly the path produced by encoding the same hop
sequence with the ExactOutput flag. -/
theorem encodeMixedRouteToPath_reverse_roundTrip (route : MixedRouteSDK)
    (h : route.pools ≠ []) :
    encodeMixedRouteToPath route false
        = interleavePath (walkTokens route.input.wrapped route.pools)
            (route.pools.map TPool.pathFee)
    ∧ interleavePath (walkTokens route.input.wrapped route.pools).reverse
          ((route.pools.map TPool.pathFee).reverse)
        = encodeMixedRouteToPath route true := by
  have hfwd : encodeMixedRouteToPath route false
      = interleavePath (walkTokens route.input.wrapped route.pools)
          (route.pools.map TPool.pathFee) := by
    unfold encodeMixedRouteToPath
    match hp : route.pools with
    | [] => exact absurd hp h
    | p :: rest =>
      rw [if_neg (by simp)]
      rw [← buildPathFrom_eq_interleave]
  refine ⟨hfwd, ?_⟩
  have hlen : (walkTokens route.input.wrapped route.pools).length
      = (route.pools.map TPool.pathFee).length + 1 := by
    rw [walkTokens_length, List.length_map]
  have hrev := interleave_reverse (route.pools.map TPool.pathFee)
    (walkTokens route.input.wrapped route.pools) hlen
  rw [← hrev, ← hfwd]
  unfold encodeMixedRouteToPath
  match hp : route.pools with
  | [] => exact absurd hp h
  | p :: rest => simp

def Q192 : Nat := 2 ^ 192

/-- The helper `getPriceForPool` inside the `midPrice` getter: a `Pair` prices from its
reserves; a `Pool` exposes `token0Price`/`token1Price`
(`sqrtRatioX96² / 2¹⁹²` quote-per-base, as in the v3 SDK). -/
def getPriceForPool (p : TPool) (nextInputIsToken0 : Bool) : Price :=
  match p with
  | .pair t0 t1 r0 r1 =>
    if nextInputIsToken0 then ⟨.token t0, .token t1, r0, r1⟩
    else ⟨.token t1, .token t0, r1, r0⟩
  | .pool t0 t1 _ sq =>
    if nextInputIsToken0 then ⟨.token t0, .token t1, Q192, sq * sq⟩
    else ⟨.token t1, .token t0, sq * sq, Q192⟩

/-- The mid-price computation of the `midPrice` getter: fold the per-hop
prices over `pools.slice(1)` starting from the direction of `pools[0]`
relative to the wrapped input, then re-express the folded fraction over the
route's own (possibly unwrapped) `input`/`output` currencies.  A route with
no pools cannot arise from the validated constructor; the fold then
degenerates to the unit fraction. -/
def midPriceCompute (r : MixedRouteSDK) : Price :=
  match r.pools with
  | [] => ⟨r.input, r.output, 1, 1⟩
  | p0 :: rest =>
    let init : Token × Price :=
      if p0.token0.equals r.input.wrapped then (p0.token1, getPriceForPool p0 true)
      else (p0.token0, getPriceForPool p0 false)
    let folded := rest.foldl
      (fun (acc : Token × Price) pool =>
        if acc.1.equals pool.token0 then
          (pool.token1, acc.2.multiply (getPriceForPool pool true))
        else
          (pool.token0, acc.2.multiply (getPriceForPool pool false)))
      init
    ⟨r.input, r.output, folded.2.denominator, folded.2.numerator⟩

/-- The `midPrice` getter with its `_midPrice` memoization cell made
explicit: a cached value is returned as-is (`if (this._midPrice !== null)
return this._midPrice`); otherwise the price is computed, stored and
returned.  The second component is the route object after the access. -/
def MixedRouteSDK.midPrice (r : MixedRouteSDK) : Price × MixedRouteSDK :=
  match r.midPriceCache with
  | some p => (p, r)
  | none =>
    let p := midPriceCompute r
    (p, { r with midPriceCache := some p })

/-- C9.  For every valid route, the first `midPrice` access stores its
result in the memoization cell, and a second access returns exactly that
cached instance, leaving the route unchanged — the access is idempotent and
referentially stable. -/
theorem midPrice_memoized (pools : List TPool) (input output : Currency)
    (r : MixedRouteSDK) (h : MixedRouteSDK.new pools input output = .ok r) :
    (r.midPrice.2).midPriceCache = some r.midPrice.1
    ∧ (r.midPrice.2).midPrice = (r.midPrice.1, r.midPrice.2) := by
  have hcache : r.midPriceCache = none := by
    cases pools with
    | nil => simp [MixedRouteSDK.new] at h
    | cons p0 rest =>
      simp only [MixedRouteSDK.new] at h
      split at h
      · exact absurd h (by simp)
      · split at h
        · exact absurd h (by simp)
        · split at h
          · exact absurd h (by simp)
          · split at h
            · exact absurd h (by simp)
            · simp only [Except.ok.injEq] at h
              rw [← h]
  unfold MixedRouteSDK.midPrice
  rw [hcache]
  simp

/-- sdk-core `TradeType`. -/
inductive TradeType where
  | exactInput
  | exactOutput
  deriving DecidableEq, Repr

/-- sdk-core `Percent`: the fraction `num / den`; the numerator may be
negative (the denominator is a positive magnitude in practice). -/
structure Percent where
  num : Int
  den : Nat
  deriving DecidableEq, Repr

/-- Failure modes of the aggregated trade accessors. -/
inductive TradeError where
  | negativeSlippageTolerance
  deriving DecidableEq, Repr

/-- The computation `ONE.add(tolerance).invert().multiply(amount).quotient`: the
slippage-lowered output bound `⌊amount · den / (den + num)⌋` (truncating
division); meaningful for non-negative tolerances. -/
def slippageAdjustedAmountOut (tol : Percent) (amount : Nat) : Nat :=
  amount * tol.den / (tol.den + tol.num.toNat)

/-- The computation `ONE.add(tolerance).multiply(amount).quotient`: the slippage-raised
input bound `⌊amount · (den + num) / den⌋` (truncating division). -/
def slippageAdjustedAmountIn (tol : Percent) (amount : Nat) : Nat :=
  amount * (tol.den + tol.num.toNat) / tol.den

/-- Modelled from the spec: the aggregated `Trade` of §3/§4.2 — its
implementation file (`src/entities/trade.ts`) is not among the given
sources, only its test suite `src/entities/trade.test.ts` is.  A trade
carries its legs as (input quotient, output quotient) pairs, the trade
type, and the overall input/output currencies (which all legs share, §3). -/
structure Trade where
  inputCurrency : Currency
  outputCurrency : Currency
  legs : List (Nat × Nat)
  tradeType : TradeType
  deriving DecidableEq, Repr

/-- Aggregate input amount: sum of the legs' input amounts. -/
def Trade.inputAmount (t : Trade) : Nat := (t.legs.map Prod.fst).sum

/-- Aggregate output amount: sum of the legs' output amounts. -/
def Trade.outputAmount (t : Trade) : Nat := (t.legs.map Prod.snd).sum

/-- The accessor `executionPrice`: the aggregate output/input ratio, as
`new Price(inputCurrency, outputCurrency, inputAmount, outputAmount)`. -/
def Trade.executionPrice (t : Trade) : Price :=
  ⟨t.inputCurrency, t.outputCurrency, t.inputAmount, t.outputAmount⟩

/-- Modelled from the spec (§4.2 `minimumAmountOut`), with the slippage
adjustment applied to the **aggregate** output amount — the behaviour
pinned by `trade.test.ts` (`worstExecutionPrice(200%)` of the two-leg
(50→35),(50→34) trade is 23, which only the aggregate computation
produces).  Rejects negative tolerances (`SLIPPAGE_TOLERANCE`); for
ExactOutput the exact aggregate output is returned unchanged. -/
def Trade.minimumAmountOut (t : Trade) (tol : Percent) : Except TradeError Nat :=
  if tol.num < 0 then .error .negativeSlippageTolerance
  else if t.tradeType = .exactOutput then .ok t.outputAmount
  else .ok (slippageAdjustedAmountOut tol t.outputAmount)

/-- Modelled from the spec: the per-leg variant that §4.2 describes word
for word — each leg's output bound computed independently, then summed. -/
def Trade.minimumAmountOutPerLeg (t : Trade) (tol : Percent) : Except TradeError Nat :=
  if tol.num < 0 then .error .negativeSlippageTolerance
  else if t.tradeType = .exactOutput then .ok t.outputAmount
  else .ok ((t.legs.map (fun leg => slippageAdjustedAmountOut tol leg.2)).sum)

/-- Modelled from the spec (§4.2 `maximumAmountIn`), aggregate form:
ExactInput returns the exact aggregate input; ExactOutput raises the
aggregate input by the tolerance (truncating). -/
def Trade.maximumAmountIn (t : Trade) (tol : Percent) : Except TradeError Nat :=
  if tol.num < 0 then .error .negativeSlippageTolerance
  else if t.tradeType = .exactInput then .ok t.inputAmount
  else .ok (slippageAdjustedAmountIn tol t.inputAmount)

/-- Modelled from the spec: the per-leg variant of `maximumAmountIn`. -/
def Trade.maximumAmountInPerLeg (t : Trade) (tol : Percent) : Except TradeError Nat :=
  if tol.num < 0 then .error .negativeSlippageTolerance
  else if t.tradeType = .exactInput then .ok t.inputAmount
  else .ok ((t.legs.map (fun leg => slippageAdjustedAmountIn tol leg.1)).sum)

/-- Modelled from the spec (§4.2 `worstExecutionPrice`): the price formed
from the slippage-raised input bound and the slippage-lowered output bound
(for ExactInput the input side is the exact aggregate input; for
ExactOutput the output side is the exact aggregate output).  Fails for a
negative tolerance. -/
def Trade.worstExecutionPrice (t : Trade) (tol : Percent) : Except TradeError Price := do
  let maxIn ← t.maximumAmountIn tol
  let minOut ← t.minimumAmountOut tol
  .ok ⟨t.inputCurrency, t.outputCurrency, maxIn, minOut⟩

/-- Modelled from the spec: `worstExecutionPrice` over the per-leg bounds
of §4.2's wording. -/
def Trade.worstExecutionPricePerLeg (t : Trade) (tol : Percent) : Except TradeError Price := do
  let maxIn ← t.maximumAmountInPerLeg tol
  let minOut ← t.minimumAmountOutPerLeg tol
  .ok ⟨t.inputCurrency, t.outputCurrency, maxIn, minOut⟩

deriving instance DecidableEq for Except

@[simp] lemma except_isOk_error {ε α : Type} (e : ε) :
    (Except.error e : Except ε α).isOk = false := rfl

@[simp] lemma except_isOk_ok {ε α : Type} (v : α) :
    (Except.ok v : Except ε α).isOk = true := rfl

lemma except_bind_ok {ε α β : Type} (v : α) (f : α → Except ε β) :
    (Except.ok v >>= f) = f v := rfl

lemma except_bind_error {ε α β : Type} (e : ε) (f : α → Except ε β) :
    ((Except.error e : Except ε α) >>= f) = .error e := rfl

/-- C6.  For every trade and tolerance `t`: `worstExecutionPrice` fails
with the negative-slippage-tolerance error if `t < 0`, and for `t = 0`
returns a value equal to `executionPrice` — for both ExactInput and
ExactOutput trades, and under both the aggregate and the per-leg reading
of the slippage bounds. -/
theorem worstExecutionPrice_tolerance_contract (t : Trade) (tol : Percent)
    (hden : 0 < tol.den) :
    (tol.num < 0 → t.worstExecutionPrice tol = .error .negativeSlippageTolerance
        ∧ t.worstExecutionPricePerLeg tol = .error .negativeSlippageTolerance)
    ∧ (tol.num = 0 → t.worstExecutionPrice tol = .ok t.executionPrice
        ∧ t.worstExecutionPricePerLeg tol = .ok t.executionPrice) := by
  constructor
  · intro hneg
    constructor <;>
      simp [Trade.worstExecutionPrice, Trade.worstExecutionPricePerLeg,
        Trade.maximumAmountIn, Trade.maximumAmountInPerLeg, hneg,
        except_bind_ok, except_bind_error]
  · intro hzero
    have hnneg : ¬ tol.num < 0 := by omega
    have htn : tol.num.toNat = 0 := by omega
    have hadjOut : ∀ a, slippageAdjustedAmountOut tol a = a := by
      intro a
      simp only [slippageAdjustedAmountOut, htn, Nat.add_zero]
      exact Nat.mul_div_cancel a hden
    have hadjIn : ∀ a, slippageAdjustedAmountIn tol a = a := by
      intro a
      simp only [slippageAdjustedAmountIn, htn, Nat.add_zero]
      exact Nat.mul_div_cancel a hden
    cases htt : t.tradeType <;>
      constructor <;>
        simp [Trade.worstExecutionPrice, Trade.worstExecutionPricePerLeg,
          Trade.maximumAmountIn, Trade.maximumAmountInPerLeg,
          Trade.minimumAmountOut, Trade.minimumAmountOutPerLeg, hnneg, htt,
          hadjOut, hadjIn, except_bind_ok, except_bind_error,
          Trade.executionPrice, Trade.inputAmount, Trade.outputAmount]

/-- The ExactInput single-leg concrete trade of `trade.test.ts`
(`#worstExecutionPrice`): leg input 100, output 69. -/
def exactInSingleLeg : Trade :=
  ⟨.token ⟨1, 1⟩, .token ⟨1, 3⟩, [(100, 69)], .exactInput⟩

/-- The ExactInput two-leg concrete trade of `trade.test.ts`: legs
(50→35) and (50→34). -/
def exactInTwoLegs : Trade :=
  ⟨.token ⟨1, 1⟩, .token ⟨1, 3⟩, [(50, 35), (50, 34)], .exactInput⟩

theorem worstExecutionPrice_tolerance_contract_witness :
    (exactInSingleLeg.worstExecutionPrice ⟨-1, 100⟩
        = .error .negativeSlippageTolerance)
    ∧ (exactInSingleLeg.worstExecutionPrice ⟨0, 100⟩
        = .ok exactInSingleLeg.executionPrice) :=
  ⟨((worstExecutionPrice_tolerance_contract exactInSingleLeg ⟨-1, 100⟩
      (by decide)).1 (by decide)).1,
   ((worstExecutionPrice_tolerance_contract exactInSingleLeg ⟨0, 100⟩
      (by decide)).2 rfl).1⟩

/-- C7 counterexample.  With each leg's minimum output computed
independently and then summed — the mechanism the claim asserts — the
two-leg trade (50→35),(50→34) yields `⌊35/3⌋ + ⌊34/3⌋ = 11 + 11 = 22` at
200% tolerance, not the claimed 23: the claimed aggregate worst price
`23/100` is not produced by per-leg truncation. -/
theorem worstExecutionPrice_perLeg_counterexample :
    Trade.worstExecutionPricePerLeg exactInTwoLegs ⟨200, 100⟩
        = .ok ⟨.token ⟨1, 1⟩, .token ⟨1, 3⟩, 100, 22⟩
    ∧ Trade.worstExecutionPricePerLeg exactInTwoLegs ⟨200, 100⟩
        ≠ .ok ⟨.token ⟨1, 1⟩, .token ⟨1, 3⟩, 100, 23⟩ := by
  decide

/-- C7 amended.  For the ExactInput single-leg trade (100→69),
`worstExecutionPrice` equals 69/100 at 0%, 65/100 at 5% and 23/100 at 200%
(truncating division); and for the two-leg trade (50→35),(50→34), with the
minimum output computed by applying the truncating division to the
aggregate output (as `trade.test.ts` pins), the worst prices at 0%, 5% and
200% are identical to the single-leg case. -/
theorem worstExecutionPrice_concrete_values :
    exactInSingleLeg.worstExecutionPrice ⟨0, 100⟩
        = .ok ⟨.token ⟨1, 1⟩, .token ⟨1, 3⟩, 100, 69⟩
    ∧ exactInSingleLeg.worstExecutionPrice ⟨5, 100⟩
        = .ok ⟨.token ⟨1, 1⟩, .token ⟨1, 3⟩, 100, 65⟩
    ∧ exactInSingleLeg.worstExecutionPrice ⟨200, 100⟩
        = .ok ⟨.token ⟨1, 1⟩, .token ⟨1, 3⟩, 100, 23⟩
    ∧ exactInTwoLegs.worstExecutionPrice ⟨0, 100⟩
        = .ok ⟨.token ⟨1, 1⟩, .token ⟨1, 3⟩, 100, 69⟩
    ∧ exactInTwoLegs.worstExecutionPrice ⟨5, 100⟩
        = .ok ⟨.token ⟨1, 1⟩, .token ⟨1, 3⟩, 100, 65⟩
    ∧ exactInTwoLegs.worstExecutionPrice ⟨200, 100⟩
        = .ok ⟨.token ⟨1, 1⟩, .token ⟨1, 3⟩, 100, 23⟩ := by
  decide

/-- Recipient of an operation: the router's own custody address
(`ADDRESS_THIS`), the caller (`MSG_SENDER`), or an explicit validated
address (`validateAndParseAddress(options.recipient)`). -/
inductive Recipient where
  | addressThis
  | msgSender
  | address (a : Nat)
  deriving DecidableEq, Repr

/-- The options record `FeeOptions`: an output fee fraction and its recipient. -/
structure FeeOptions where
  fee : Percent
  recipient : Nat
  deriving DecidableEq, Repr

/-- The options record `SwapOptions` (`swapRouter.ts`): the slippage tolerance, the optional
recipient, whether an input-token permit is supplied (its signature content
is external ABI glue), and the optional output fee.
`deadlineOrPreviousBlockhash` only reaches the external multicall wrapper
and is omitted. -/
structure SwapOptions where
  slippageTolerance : Percent
  recipient : Option Nat
  inputTokenPermit : Bool
  fee : Option FeeOptions
  deriving DecidableEq, Repr

/-- The operations the compiler emits, as pure descriptors (method plus
typed parameters); turning a descriptor into calldata bytes is the external
ABI encoder's job. -/
inductive Operation where
  | selfPermit (token : Token)
  | swapExactTokensForTokens (amountIn : Nat) (amountOutMin : Nat)
      (path : List Nat) (recipient : Recipient)
  | swapTokensForExactTokens (amountOut : Nat) (amountInMax : Nat)
      (path : List Nat) (recipient : Recipient)
  | exactInputSingle (tokenIn tokenOut : Nat) (feeTier : Option Nat)
      (recipient : Recipient) (amountIn : Nat) (amountOutMinimum : Nat)
  | exactOutputSingle (tokenIn tokenOut : Nat) (feeTier : Option Nat)
      (recipient : Recipient) (amountOut : Nat) (amountInMaximum : Nat)
  | exactInput (path : List PathComponent) (recipient : Recipient)
      (amountIn : Nat) (amountOutMinimum : Nat)
  | exactOutput (path : List PathComponent) (recipient : Recipient)
      (amountOut : Nat) (amountInMaximum : Nat)
  deriving DecidableEq, Repr

/-- Failure modes of the execution-plan compiler.  `invalidRoute` and
`emptySection` stand for the places where the JavaScript would dereference
`undefined` (they are unreachable for well-formed routes);
`routeConstruction` wraps an `invariant` thrown while building a
per-section sub-route. -/
inductive SwapError where
  | negativeSlippageTolerance
  | mixedRouteNotExactInput
  | unsupportedSingleHopMixedRoute
  | tokenInDiff
  | tokenOutDiff
  | tradeTypeDiff
  | nonTokenPermit
  | noTrades
  | emptySection
  | invalidRoute
  | routeConstruction (e : RouteError)
  deriving DecidableEq, Repr

/-- The fee tier of a v3 pool; `none` models the `undefined` a `.fee`
access on a v2 pair would read. -/
def TPool.feeTier : TPool → Option Nat
  | .pool _ _ f _ => some f
  | .pair _ _ _ _ => none

/-- A raw amount of a currency (sdk-core `CurrencyAmount` restricted to
its `quotient`, as the compiler reads it). -/
structure CurrencyAmount where
  currency : Currency
  quotient : Nat
  deriving DecidableEq, Repr

/-- The SDK trade method `maximumAmountIn(slippageTolerance, amount)`
shared by the v2, v3 and mixed-route trades: rejects a negative tolerance
(`SLIPPAGE_TOLERANCE`); for ExactInput the amount is exact, for ExactOutput
it is raised by the tolerance (truncating). -/
def sdkMaximumAmountIn (tradeType : TradeType) (tol : Percent) (amount : Nat) :
    Except SwapError Nat :=
  if tol.num < 0 then .error .negativeSlippageTolerance
  else if tradeType = .exactInput then .ok amount
  else .ok (slippageAdjustedAmountIn tol amount)

/-- The SDK trade method `minimumAmountOut(slippageTolerance, amount)`:
rejects a negative tolerance; for ExactOutput the amount is exact, for
ExactInput it is lowered by the tolerance (truncating). -/
def sdkMinimumAmountOut (tradeType : TradeType) (tol : Percent) (amount : Nat) :
    Except SwapError Nat :=
  if tol.num < 0 then .error .negativeSlippageTolerance
  else if tradeType = .exactOutput then .ok amount
  else .ok (slippageAdjustedAmountOut tol amount)

/-- One `{route, inputAmount, outputAmount}` entry of `trade.swaps`.  The
route structure is shared across protocols: the v2 `Route` (pairs plus
token `path`) and the v3 `Route` (pools plus `tokenPath`) expose exactly
the fields `MixedRouteSDK` carries. -/
structure SwapLeg where
  route : MixedRouteSDK
  inputAmount : CurrencyAmount
  outputAmount : CurrencyAmount
  deriving DecidableEq, Repr

/-- A v2-sdk `Trade`: one route and one amount pair. -/
structure V2Trade where
  route : MixedRouteSDK
  inputAmount : CurrencyAmount
  outputAmount : CurrencyAmount
  tradeType : TradeType
  deriving DecidableEq, Repr

/-- A v3-sdk `Trade` or a router-sdk `MixedRouteTrade`: a list of swaps
plus the trade type. -/
structure MultiSwapTrade where
  swaps : List SwapLeg
  tradeType : TradeType
  deriving DecidableEq, Repr

/-- The accessor `trade.inputAmount` of a multi-swap trade: the sum of the legs' input
amounts, in the first leg's currency (reading the currency of an empty
swap list is the `undefined` dereference of the JavaScript; a placeholder
token stands in for it). -/
def MultiSwapTrade.inputAmount (t : MultiSwapTrade) : CurrencyAmount :=
  match t.swaps with
  | [] => ⟨.token ⟨0, 0⟩, 0⟩
  | s :: _ => ⟨s.inputAmount.currency, (t.swaps.map (fun l => l.inputAmount.quotient)).sum⟩

/-- The accessor `trade.outputAmount` of a multi-swap trade. -/
def MultiSwapTrade.outputAmount (t : MultiSwapTrade) : CurrencyAmount :=
  match t.swaps with
  | [] => ⟨.token ⟨0, 0⟩, 0⟩
  | s :: _ => ⟨s.outputAmount.currency, (t.swaps.map (fun l => l.outputAmount.quotient)).sum⟩

/-- The trade objects `encodeSwaps` iterates over after unbundling:
`V2Trade | V3Trade | MixedRouteTrade`. -/
inductive RTrade where
  | v2 (t : V2Trade)
  | v3 (t : MultiSwapTrade)
  | mixed (t : MultiSwapTrade)
  deriving DecidableEq, Repr

def RTrade.tradeType : RTrade → TradeType
  | .v2 t => t.tradeType
  | .v3 t => t.tradeType
  | .mixed t => t.tradeType

def RTrade.inputAmount : RTrade → CurrencyAmount
  | .v2 t => t.inputAmount
  | .v3 t => t.inputAmount
  | .mixed t => t.inputAmount

def RTrade.outputAmount : RTrade → CurrencyAmount
  | .v2 t => t.outputAmount
  | .v3 t => t.outputAmount
  | .mixed t => t.outputAmount

/-- The selection `typeof options.recipient === 'undefined' ? MSG_SENDER :
validateAndParseAddress(options.recipient)`. -/
def optionRecipient : Option Nat → Recipient
  | none => .msgSender
  | some a => .address a

/-- The recipient selection of the v2/v3 encoders:
`routerMustCustody ? ADDRESS_THIS : …`. -/
def resolveRecipient (routerMustCustody : Bool) (recipient : Option Nat) : Recipient :=
  if routerMustCustody then .addressThis else optionRecipient recipient

/-- The encoder `SwapRouter.encodeV2Swap`: one v2 operation, with the per-trade
minimum-out zeroed under an aggregated slippage check for ExactInput. -/
def encodeV2Swap (trade : V2Trade) (options : SwapOptions)
    (routerMustCustody performAggregatedSlippageCheck : Bool) :
    Except SwapError Operation := do
  let amountIn ← sdkMaximumAmountIn trade.tradeType options.slippageTolerance
    trade.inputAmount.quotient
  let amountOut ← sdkMinimumAmountOut trade.tradeType options.slippageTolerance
    trade.outputAmount.quotient
  let path := trade.route.path.map (fun t => t.address)
  let recipient := resolveRecipient routerMustCustody options.recipient
  if trade.tradeType = .exactInput then
    .ok (.swapExactTokensForTokens amountIn
      (if performAggregatedSlippageCheck then 0 else amountOut) path recipient)
  else
    .ok (.swapTokensForExactTokens amountOut amountIn path recipient)

/-- The per-`swap` loop of `SwapRouter.encodeV3Swap`: a single-hop leg
becomes an `exactInputSingle`/`exactOutputSingle` with the two boundary
tokens and the pool's fee tier; a multi-hop leg packs its whole path (the
v3-sdk `encodeRouteToPath`, which on v3-only pools coincides with the mixed
path encoder, reversing for ExactOutput) into one `exactInput`/
`exactOutput`. -/
def encodeV3SwapLoop (tradeType : TradeType) (options : SwapOptions)
    (routerMustCustody performAggregatedSlippageCheck : Bool) :
    List SwapLeg → Except SwapError (List Operation)
  | [] => .ok []
  | leg :: rest => do
    let amountIn ← sdkMaximumAmountIn tradeType options.slippageTolerance
      leg.inputAmount.quotient
    let amountOut ← sdkMinimumAmountOut tradeType options.slippageTolerance
      leg.outputAmount.quotient
    let recipient := resolveRecipient routerMustCustody options.recipient
    let op ←
      if leg.route.pools.length = 1 then
        match leg.route.path, leg.route.pools with
        | t0 :: t1 :: _, p :: _ =>
          if tradeType = .exactInput then
            .ok (Operation.exactInputSingle t0.address t1.address p.feeTier recipient
              amountIn (if performAggregatedSlippageCheck then 0 else amountOut))
          else
            .ok (Operation.exactOutputSingle t0.address t1.address p.feeTier recipient
              amountOut amountIn)
        | _, _ => .error .invalidRoute
      else
        let path := encodeMixedRouteToPath leg.route (tradeType = .exactOutput)
        if tradeType = .exactInput then
          .ok (Operation.exactInput path recipient amountIn
            (if performAggregatedSlippageCheck then 0 else amountOut))
        else
          .ok (Operation.exactOutput path recipient amountOut amountIn)
    let more ← encodeV3SwapLoop tradeType options routerMustCustody
      performAggregatedSlippageCheck rest
    .ok (op :: more)

/-- The predicate `mixedRouteIsAllV3`: every pool of the route is a v3 `Pool`. -/
def mixedRouteIsAllV3 (route : MixedRouteSDK) : Bool :=
  route.pools.all TPool.isPool

/-- The helper `getOutputOfSection` as inlined in `encodeMixedRouteSwap`: fold the
complementary-token step over the section (this inline copy performs no
involvement check). -/
def getOutputOfSection (sec : List TPool) (firstInputToken : Token) : Token :=
  sec.foldl
    (fun inputToken pool =>
      if pool.token0.equals inputToken then pool.token1 else pool.token0)
    firstInputToken

/-- The per-section loop of `SwapRouter.encodeMixedRouteSwap`, for section
`i` of `n`: the section's output token is computed first, the sub-route's
input token is then chosen as the complement of that **new** output token
within the section's first pool (exactly as the source does), a fresh
`MixedRouteSDK` is constructed over the section (its `invariant` failures
propagate), and one `exactInput` (all-v3 section) or
`swapExactTokensForTokens` (pair section) operation is emitted with
`amountIn = i == 0 ? amountIn : 0`,
`amountOutMinimum = isLast ? amountOut : 0` and
`recipient = isLast ? recipient : ADDRESS_THIS`. -/
def encodeMixedSections (n amountIn amountOut : Nat) (recipient : Recipient) :
    Nat → Token → List (List TPool) → Except SwapError (List Operation)
  | _, _, [] => .ok []
  | i, outputToken, sec :: rest =>
    match sec with
    | [] => .error .emptySection
    | s0 :: srest =>
      let newOutputToken := getOutputOfSection (s0 :: srest) outputToken
      let inputTok := if s0.token0.equals newOutputToken then s0.token1 else s0.token0
      match MixedRouteSDK.new (s0 :: srest) (.token inputTok) (.token newOutputToken) with
      | .error e => .error (.routeConstruction e)
      | .ok newRoute =>
        match encodeMixedSections n amountIn amountOut recipient (i + 1)
            newOutputToken rest with
        | .error e => .error e
        | .ok more =>
          let path := encodeMixedRouteToPath newRoute false
          let op :=
            if mixedRouteIsAllV3 newRoute then
              Operation.exactInput path
                (if i = n - 1 then recipient else .addressThis)
                (if i = 0 then amountIn else 0)
                (if ¬ i = n - 1 then 0 else amountOut)
            else
              Operation.swapExactTokensForTokens
                (if i = 0 then amountIn else 0)
                (if ¬ i = n - 1 then 0 else amountOut)
                (newRoute.path.map (fun t => t.address))
                (if i = n - 1 then recipient else .addressThis)
          .ok (op :: more)

/-- The per-`swap` loop of `SwapRouter.encodeMixedRouteSwap`: bound
amounts first, then the single-hop rejection
(`invariant(!(route instanceof MixedRouteSDK))`, which always throws for a
mixed route), then the section split and the per-section encoding starting
from the route's wrapped input. -/
def encodeMixedRouteSwapLoop (tradeType : TradeType) (options : SwapOptions) :
    List SwapLeg → Except SwapError (List Operation)
  | [] => .ok []
  | leg :: rest => do
    let amountIn ← sdkMaximumAmountIn tradeType options.slippageTolerance
      leg.inputAmount.quotient
    let amountOut ← sdkMinimumAmountOut tradeType options.slippageTolerance
      leg.outputAmount.quotient
    let recipient := optionRecipient options.recipient
    if leg.route.pools.length = 1 then
      .error .unsupportedSingleHopMixedRoute
    else
      let sections := divideSections leg.route.pools
      let ops ← encodeMixedSections sections.length amountIn amountOut recipient 0
        leg.route.input.wrapped sections
      let more ← encodeMixedRouteSwapLoop tradeType options rest
      .ok (ops ++ more)

/-- The encoder `SwapRouter.encodeMixedRouteSwap`: mixed-route trades must be exact
input trades; otherwise encode each swap leg in order. -/
def encodeMixedRouteSwap (trade : MultiSwapTrade) (options : SwapOptions) :
    Except SwapError (List Operation) :=
  if trade.tradeType ≠ .exactInput then .error .mixedRouteNotExactInput
  else encodeMixedRouteSwapLoop trade.tradeType options trade.swaps

/-- The `numberOfTrades` reduce of `encodeSwaps`: a v3 or mixed-route
trade contributes `trade.swaps.length`, a v2 trade contributes 1. -/
def numberOfTrades (trades : List RTrade) : Nat :=
  trades.foldl
    (fun n t =>
      n + match t with
        | .v2 _ => 1
        | .v3 mt => mt.swaps.length
        | .mixed mt => mt.swaps.length)
    0

/-- The result record of `encodeSwaps` (the `sampleTrade` field is the
head of the trade list and is omitted). -/
structure EncodeSwapsResult where
  calldatas : List Operation
  routerMustCustody : Bool
  inputIsNative : Bool
  outputIsNative : Bool
  totalAmountIn : Nat
  minimumAmountOut : Nat
  quoteAmountOut : Nat
  deriving DecidableEq, Repr

/-- The trade dispatch loop of `encodeSwaps`. -/
def encodeTradesLoop (options : SwapOptions)
    (routerMustCustody performAggregatedSlippageCheck : Bool) :
    List RTrade → Except SwapError (List Operation)
  | [] => .ok []
  | t :: rest => do
    let ops ←
      match t with
      | .v2 t2 => do
        let op ← encodeV2Swap t2 options routerMustCustody performAggregatedSlippageCheck
        .ok [op]
      | .v3 t3 =>
        encodeV3SwapLoop t3.tradeType options routerMustCustody
          performAggregatedSlippageCheck t3.swaps
      | .mixed tm => encodeMixedRouteSwap tm options
    let more ← encodeTradesLoop options routerMustCustody
      performAggregatedSlippageCheck rest
    .ok (ops ++ more)

/-- An effectful sum over the trades (the `reduce` over
`trade.minimumAmountOut` / `trade.maximumAmountIn`, whose per-trade calls
may reject the tolerance). -/
def sumAmounts (f : RTrade → Except SwapError Nat) :
    List RTrade → Except SwapError Nat
  | [] => .ok 0
  | t :: rest => do
    let a ← f t
    let s ← sumAmounts f rest
    .ok (a + s)

/-- The compiler `SwapRouter.encodeSwaps` on the unbundled trade list: validates that
all trades share input currency, output currency and trade type; computes
`performAggregatedSlippageCheck = tradeType === EXACT_INPUT &&
numberOfTrades > 2` and `routerMustCustody = outputIsNative || !!fee ||
!!isSwapAndAdd || performAggregatedSlippageCheck`; optionally emits the
input permit (tokens only); encodes every trade; and aggregates the
amount summary.  An empty trade list dereferences `undefined` in the
source and is an error here. -/
def encodeSwaps : List RTrade → SwapOptions → Bool →
    Except SwapError EncodeSwapsResult
  | [], _, _ => .error .noTrades
  | sampleTrade :: tail, options, isSwapAndAdd =>
    let trades := sampleTrade :: tail
    if ¬ trades.all (fun t => t.inputAmount.currency == sampleTrade.inputAmount.currency) then
      .error .tokenInDiff
    else if ¬ trades.all (fun t => t.outputAmount.currency == sampleTrade.outputAmount.currency) then
      .error .tokenOutDiff
    else if ¬ trades.all (fun t => t.tradeType == sampleTrade.tradeType) then
      .error .tradeTypeDiff
    else
      let inputIsNative := sampleTrade.inputAmount.currency.isNative
      let outputIsNative := sampleTrade.outputAmount.currency.isNative
      let performAggregatedSlippageCheck :=
        sampleTrade.tradeType == .exactInput && numberOfTrades trades > 2
      let routerMustCustody :=
        outputIsNative || options.fee.isSome || isSwapAndAdd || performAggregatedSlippageCheck
      match (if options.inputTokenPermit then
          (if sampleTrade.inputAmount.currency.isToken then
            Except.ok [Operation.selfPermit sampleTrade.inputAmount.currency.wrapped]
          else
            Except.error SwapError.nonTokenPermit)
        else
          Except.ok []) with
      | .error e => .error e
      | .ok permitOps =>
        match encodeTradesLoop options routerMustCustody
            performAggregatedSlippageCheck trades with
        | .error e => .error e
        | .ok swapOps =>
          match sumAmounts
              (fun t => sdkMinimumAmountOut t.tradeType options.slippageTolerance
                t.outputAmount.quotient) trades with
          | .error e => .error e
          | .ok minimumAmountOut =>
            let quoteAmountOut := (trades.map (fun t => t.outputAmount.quotient)).sum
            match sumAmounts
                (fun t => sdkMaximumAmountIn t.tradeType options.slippageTolerance
                  t.inputAmount.quotient) trades with
            | .error e => .error e
            | .ok totalAmountIn =>
              .ok ⟨permitOps ++ swapOps, routerMustCustody, inputIsNative,
                outputIsNative, totalAmountIn, minimumAmountOut, quoteAmountOut⟩

/-- C10.  For every trade over a mixed route whose trade type is
ExactOutput, the mixed-route compiler rejects the trade with the
mixed-route-must-be-exact-input error before emitting any operation. -/
theorem encodeMixedRouteSwap_exactOutput_rejected (trade : MultiSwapTrade)
    (options : SwapOptions) (h : trade.tradeType = .exactOutput) :
    encodeMixedRouteSwap trade options = .error .mixedRouteNotExactInput := by
  unfold encodeMixedRouteSwap
  rw [h]
  simp

theorem encodeMixedRouteSwap_exactOutput_rejected_witness :
    encodeMixedRouteSwap ⟨[], .exactOutput⟩ ⟨⟨0, 100⟩, none, false, none⟩
      = .error .mixedRouteNotExactInput :=
  encodeMixedRouteSwap_exactOutput_rejected _ _ rfl

lemma encodeMixedRouteSwapLoop_singleHop_fails (options : SwapOptions)
    (leg : SwapLeg) (h1 : leg.route.pools.length = 1) :
    ∀ legs : List SwapLeg, leg ∈ legs →
      (encodeMixedRouteSwapLoop .exactInput options legs).isOk = false := by
  intro legs
  induction legs with
  | nil => intro hmem; exact absurd hmem (List.not_mem_nil leg)
  | cons a rest ih =>
    intro hmem
    unfold encodeMixedRouteSwapLoop
    cases hA : sdkMaximumAmountIn .exactInput options.slippageTolerance
        a.inputAmount.quotient with
    | error e => simp [except_bind_error, hA]
    | ok vIn =>
      cases hB : sdkMinimumAmountOut .exactInput options.slippageTolerance
          a.outputAmount.quotient with
      | error e => simp [except_bind_ok, except_bind_error, hA, hB]
      | ok vOut =>
        rcases List.mem_cons.mp hmem with heq | hmem'
        · rw [← heq]
          simp [except_bind_ok, hA, hB, h1]
        · simp only [except_bind_ok, hA, hB]
          by_cases hsh : a.route.pools.length = 1
          · simp [hsh]
          · simp only [hsh, if_false, if_neg hsh]
            cases hS : encodeMixedSections
                (divideSections a.route.pools).length vIn vOut
                (optionRecipient options.recipient) 0 a.route.input.wrapped
                (divideSections a.route.pools) with
            | error e => simp [except_bind_error, hS]
            | ok ops =>
              cases hR : encodeMixedRouteSwapLoop .exactInput options rest with
              | error e => simp [except_bind_ok, except_bind_error, hS, hR]
              | ok more =>
                have := ih hmem'
                rw [hR] at this
                simp at this

/-- C8.  Compiling a mixed leg whose route contains exactly one pool always
fails — the whole `encodeMixedRouteSwap` call never succeeds — and when the
trade consists of that single leg and the tolerance is non-negative the
error is precisely the single-hop rejection: a mixed leg must have at least
two pools to be encoded. -/
theorem encodeMixedRouteSwap_singleHop_rejected (trade : MultiSwapTrade)
    (options : SwapOptions) (leg : SwapLeg) (hmem : leg ∈ trade.swaps)
    (h1 : leg.route.pools.length = 1) (hty : trade.tradeType = .exactInput) :
    (encodeMixedRouteSwap trade options).isOk = false
    ∧ (trade.swaps = [leg] → ¬ options.slippageTolerance.num < 0 →
        encodeMixedRouteSwap trade options = .error .unsupportedSingleHopMixedRoute) := by
  constructor
  · unfold encodeMixedRouteSwap
    rw [hty]
    simp only [ne_eq, not_true_eq_false, if_false]
    exact encodeMixedRouteSwapLoop_singleHop_fails options leg h1 trade.swaps hmem
  · intro hswaps hpos
    unfold encodeMixedRouteSwap
    rw [hty, hswaps]
    simp only [ne_eq, not_true_eq_false, if_false]
    unfold encodeMixedRouteSwapLoop
    rw [sdkMaximumAmountIn, sdkMinimumAmountOut]
    simp [hpos, except_bind_ok, h1]

/-- A one-pool mixed leg used to exercise the single-hop rejection. -/
def singleHopMixedLeg : SwapLeg :=
  ⟨⟨[.pool ⟨1, 10⟩ ⟨1, 11⟩ 3000 1], [⟨1, 10⟩, ⟨1, 11⟩],
      .token ⟨1, 10⟩, .token ⟨1, 11⟩, none⟩,
    ⟨.token ⟨1, 10⟩, 10⟩, ⟨.token ⟨1, 11⟩, 9⟩⟩

theorem encodeMixedRouteSwap_singleHop_rejected_witness :
    encodeMixedRouteSwap ⟨[singleHopMixedLeg], .exactInput⟩
        ⟨⟨5, 100⟩, none, false, none⟩
      = .error .unsupportedSingleHopMixedRoute :=
  (encodeMixedRouteSwap_singleHop_rejected ⟨[singleHopMixedLeg], .exactInput⟩
    ⟨⟨5, 100⟩, none, false, none⟩ singleHopMixedLeg (by decide) (by decide)
    rfl).2 rfl (by decide)

/-- The `amountIn` field of a mixed-section operation. -/
def Operation.sectionAmountIn : Operation → Option Nat
  | .exactInput _ _ a _ => some a
  | .swapExactTokensForTokens a _ _ _ => some a
  | _ => none

/-- The `amountOutMinimum` field of a mixed-section operation. -/
def Operation.sectionAmountOutMin : Operation → Option Nat
  | .exactInput _ _ _ m => some m
  | .swapExactTokensForTokens _ m _ _ => some m
  | _ => none

/-- The `recipient` field of a mixed-section operation. -/
def Operation.sectionRecipient : Operation → Option Recipient
  | .exactInput _ r _ _ => some r
  | .swapExactTokensForTokens _ _ _ r => some r
  | _ => none

lemma encodeMixedSections_fields (n aIn aOut : Nat) (rec : Recipient) :
    ∀ (secs : List (List TPool)) (i : Nat) (tok : Token) (ops : List Operation),
      encodeMixedSections n aIn aOut rec i tok secs = .ok ops →
      ops.length = secs.length ∧
      ∀ (j : Nat) (hj : j < ops.length),
        (ops.get ⟨j, hj⟩).sectionAmountIn = some (if i + j = 0 then aIn else 0)
        ∧ (ops.get ⟨j, hj⟩).sectionAmountOutMin
            = some (if i + j = n - 1 then aOut else 0)
        ∧ (ops.get ⟨j, hj⟩).sectionRecipient
            = some (if i + j = n - 1 then rec else .addressThis) := by
  intro secs
  induction secs with
  | nil =>
    intro i tok ops h
    unfold encodeMixedSections at h
    simp only [Except.ok.injEq] at h
    subst h
    exact ⟨rfl, fun j hj => absurd hj (by simp)⟩
  | cons sec rest ih =>
    intro i tok ops h
    cases sec with
    | nil => unfold encodeMixedSections at h; simp at h
    | cons s0 srest =>
      unfold encodeMixedSections at h
      simp only [] at h
      split at h
      · simp at h
      · split at h
        · simp at h
        · rename_i x1 newRoute hnew x2 more hmore
          simp only [Except.ok.injEq] at h
          subst h
          obtain ⟨ihlen, ihfields⟩ := ih (i + 1) (getOutputOfSection (s0 :: srest) tok) more hmore
          constructor
          · simp [ihlen]
          · intro j hj
            cases j with
            | zero =>
              simp only [Nat.add_zero, List.get]
              by_cases hv3 : mixedRouteIsAllV3 newRoute <;>
                by_cases hlast : i = n - 1 <;>
                  simp [hv3, hlast, Operation.sectionAmountIn,
                    Operation.sectionAmountOutMin, Operation.sectionRecipient]
            | succ j' =>
              have hj' : j' < more.length := by
                simp only [List.length_cons] at hj
                omega
              have hfields := ihfields j' hj'
              have hidx : i + 1 + j' = i + (j' + 1) := by omega
              rw [hidx] at hfields
              exact hfields

/-- C2.  When the compiler encodes a mixed leg whose segmentation has
`n ≥ 2` segments, the `i`-th emitted operation carries
`amountIn = leg's full bounded input amount` for `i = 0` and the sentinel
`0` otherwise; `amountOutMinimum = 0` for every segment except the last,
which receives the leg's slippage-bounded minimum output; and
`recipient = ADDRESS_THIS` for every segment except the last, which
receives the true recipient. -/
theorem encodeMixedRouteSwap_segment_fields (leg : SwapLeg) (options : SwapOptions)
    (ops : List Operation)
    (h : encodeMixedRouteSwap ⟨[leg], .exactInput⟩ options = .ok ops)
    (_hn : 2 ≤ (divideSections leg.route.pools).length) :
    ops.length = (divideSections leg.route.pools).length
    ∧ ∀ (i : Nat) (hi : i < ops.length),
        (ops.get ⟨i, hi⟩).sectionAmountIn
          = some (if i = 0 then leg.inputAmount.quotient else 0)
        ∧ (ops.get ⟨i, hi⟩).sectionAmountOutMin
            = some (if i = ops.length - 1 then
                  slippageAdjustedAmountOut options.slippageTolerance
                    leg.outputAmount.quotient
                else 0)
        ∧ (ops.get ⟨i, hi⟩).sectionRecipient
            = some (if i = ops.length - 1 then optionRecipient options.recipient
                else .addressThis) := by
  unfold encodeMixedRouteSwap at h
  simp only [ne_eq, not_true_eq_false, if_false] at h
  unfold encodeMixedRouteSwapLoop at h
  by_cases hneg : options.slippageTolerance.num < 0
  · rw [sdkMaximumAmountIn, if_pos hneg] at h
    simp [except_bind_error] at h
  · rw [sdkMaximumAmountIn, if_neg hneg, if_pos rfl] at h
    rw [sdkMinimumAmountOut, if_neg hneg] at h
    simp only [except_bind_ok] at h
    have hto : (.exactInput : TradeType) = .exactOutput ↔ False := by
      constructor <;> intro hc <;> cases hc
    rw [if_neg (by simp [hto])] at h
    simp only [except_bind_ok] at h
    by_cases hsh : leg.route.pools.length = 1
    · rw [if_pos hsh] at h
      simp at h
    · rw [if_neg hsh] at h
      cases hS : encodeMixedSections (divideSections leg.route.pools).length
          leg.inputAmount.quotient
          (slippageAdjustedAmountOut options.slippageTolerance leg.outputAmount.quotient)
          (optionRecipient options.recipient) 0 leg.route.input.wrapped
          (divideSections leg.route.pools) with
      | error e => rw [hS] at h; simp [except_bind_error] at h
      | ok sOps =>
        rw [hS] at h
        simp only [except_bind_ok] at h
        unfold encodeMixedRouteSwapLoop at h
        simp only [except_bind_ok, List.append_nil, Except.ok.injEq] at h
        subst h
        obtain ⟨hlen, hfields⟩ := encodeMixedSections_fields
          (divideSections leg.route.pools).length leg.inputAmount.quotient
          (slippageAdjustedAmountOut options.slippageTolerance leg.outputAmount.quotient)
          (optionRecipient options.recipient) (divideSections leg.route.pools) 0
          leg.route.input.wrapped sOps hS
        refine ⟨hlen, ?_⟩
        intro i hi
        have hf := hfields i hi
        simp only [Nat.zero_add] at hf
        rw [← hlen] at hf
        exact hf

/-- A concrete two-segment mixed leg (one v3 pool, then one v2 pair). -/
def mixedLegW : SwapLeg :=
  ⟨⟨[.pool ⟨1, 10⟩ ⟨1, 11⟩ 3000 1, .pair ⟨1, 11⟩ ⟨1, 12⟩ 100 200],
      [⟨1, 10⟩, ⟨1, 11⟩, ⟨1, 12⟩], .token ⟨1, 10⟩, .token ⟨1, 12⟩, none⟩,
    ⟨.token ⟨1, 10⟩, 1000⟩, ⟨.token ⟨1, 12⟩, 900⟩⟩

/-- The plan the compiler emits for `mixedLegW` at 5% tolerance. -/
def mixedOpsW : List Operation :=
  [.exactInput [.addr 10, .fee 3000, .addr 11] .addressThis 1000 0,
   .swapExactTokensForTokens 0 857 [11, 12] .msgSender]

theorem encodeMixedRouteSwap_segment_fields_witness :
    mixedOpsW.length = (divideSections mixedLegW.route.pools).length
    ∧ ∀ (i : Nat) (hi : i < mixedOpsW.length),
        (mixedOpsW.get ⟨i, hi⟩).sectionAmountIn
          = some (if i = 0 then mixedLegW.inputAmount.quotient else 0)
        ∧ (mixedOpsW.get ⟨i, hi⟩).sectionAmountOutMin
            = some (if i = mixedOpsW.length - 1 then
                  slippageAdjustedAmountOut (⟨5, 100⟩ : Percent)
                    mixedLegW.outputAmount.quotient
                else 0)
        ∧ (mixedOpsW.get ⟨i, hi⟩).sectionRecipient
            = some (if i = mixedOpsW.length - 1 then optionRecipient none
                else .addressThis) :=
  encodeMixedRouteSwap_segment_fields mixedLegW ⟨⟨5, 100⟩, none, false, none⟩
    mixedOpsW (by decide) (by decide)

/-- The custody condition exactly as the claim words it, for comparison
with the code's flag: true iff the output currency is native, or an output
fee is configured, or the call is part of a composite add-liquidity flow,
or the trade type is ExactInput and the **total count of underlying
single-pool swaps across all legs** exceeds two — counting, for every leg,
the number of pools its route traverses. -/
def totalSinglePoolSwaps (trades : List RTrade) : Nat :=
  (trades.map
    (fun t =>
      match t with
      | .v2 t2 => t2.route.pools.length
      | .v3 mt => (mt.swaps.map (fun s => s.route.pools.length)).sum
      | .mixed mt => (mt.swaps.map (fun s => s.route.pools.length)).sum)).sum

def specRouterMustCustody (trades : List RTrade) (options : SwapOptions)
    (isSwapAndAdd : Bool) : Bool :=
  match trades with
  | [] => false
  | sample :: _ =>
    sample.outputAmount.currency.isNative || options.fee.isSome || isSwapAndAdd
      || (sample.tradeType == .exactInput && decide (totalSinglePoolSwaps trades > 2))

/-- An ExactInput v3 trade with one leg whose route crosses three pools. -/
def threeHopV3Trade : RTrade :=
  .v3 ⟨[⟨⟨[.pool ⟨1, 10⟩ ⟨1, 11⟩ 3000 1, .pool ⟨1, 11⟩ ⟨1, 12⟩ 3000 1,
            .pool ⟨1, 12⟩ ⟨1, 13⟩ 3000 1],
          [⟨1, 10⟩, ⟨1, 11⟩, ⟨1, 12⟩, ⟨1, 13⟩],
          .token ⟨1, 10⟩, .token ⟨1, 13⟩, none⟩,
        ⟨.token ⟨1, 10⟩, 1000⟩, ⟨.token ⟨1, 13⟩, 900⟩⟩], .exactInput⟩

/-- Token-output options with no fee, at 5% tolerance. -/
def plainOptions : SwapOptions := ⟨⟨5, 100⟩, none, false, none⟩

/-- C1 counterexample.  A single ExactInput v3 trade whose one leg routes
through three pools, with a token output, no fee and no add-liquidity
flow: the code's `numberOfTrades` reduce counts the trade's `swaps`
entries (here 1, not more than two), so `encodeSwaps` returns
`routerMustCustody = false` — while the claim's count of underlying
single-pool swaps is 3, making its condition true. -/
theorem routerMustCustody_counterexample :
    (encodeSwaps [threeHopV3Trade] plainOptions false).map
        EncodeSwapsResult.routerMustCustody = .ok false
    ∧ specRouterMustCustody [threeHopV3Trade] plainOptions false = true := by
  decide

/-- C1 amended.  For every successful call to `encodeSwaps`, the returned
`routerMustCustody` flag is true iff the output currency is native, or an
output fee option is configured, or the call is part of a composite
add-liquidity (swap-and-add) flow, or the trade type is ExactInput and
`numberOfTrades` — which counts each swap leg of a v3 or mixed-route trade
and each whole v2 trade as one, not the underlying single-pool swaps —
exceeds two. -/
theorem encodeSwaps_routerMustCustody (sample : RTrade) (rest : List RTrade)
    (options : SwapOptions) (isSwapAndAdd : Bool)
    (h : (encodeSwaps (sample :: rest) options isSwapAndAdd).isOk = true) :
    (encodeSwaps (sample :: rest) options isSwapAndAdd).map
        EncodeSwapsResult.routerMustCustody
      = .ok (sample.outputAmount.currency.isNative || options.fee.isSome
          || isSwapAndAdd
          || (sample.tradeType == .exactInput
              && decide (numberOfTrades (sample :: rest) > 2))) := by
  simp only [encodeSwaps] at h ⊢
  by_cases hc1 : ¬ ((sample :: rest).all
      (fun t => t.inputAmount.currency == sample.inputAmount.currency) = true)
  · rw [if_pos hc1] at h
    simp at h
  · rw [if_neg hc1] at h ⊢
    by_cases hc2 : ¬ ((sample :: rest).all
        (fun t => t.outputAmount.currency == sample.outputAmount.currency) = true)
    · rw [if_pos hc2] at h
      simp at h
    · rw [if_neg hc2] at h ⊢
      by_cases hc3 : ¬ ((sample :: rest).all
          (fun t => t.tradeType == sample.tradeType) = true)
      · rw [if_pos hc3] at h
        simp at h
      · rw [if_neg hc3] at h ⊢
        cases hP : (if options.inputTokenPermit = true then
            (if sample.inputAmount.currency.isToken = true then
              Except.ok [Operation.selfPermit sample.inputAmount.currency.wrapped]
            else Except.error SwapError.nonTokenPermit)
          else Except.ok ([] : List Operation)) with
        | error e => simp [hP] at h
        | ok permitOps =>
          cases hL : encodeTradesLoop options
              (sample.outputAmount.currency.isNative || options.fee.isSome
                || isSwapAndAdd
                || (sample.tradeType == .exactInput
                    && decide (numberOfTrades (sample :: rest) > 2)))
              (sample.tradeType == .exactInput
                && decide (numberOfTrades (sample :: rest) > 2))
              (sample :: rest) with
          | error e => simp [hP, hL] at h
          | ok swapOps =>
            cases hM : sumAmounts
                (fun t => sdkMinimumAmountOut t.tradeType options.slippageTolerance
                  t.outputAmount.quotient) (sample :: rest) with
            | error e => simp [hP, hL, hM] at h
            | ok minOut =>
              cases hT : sumAmounts
                  (fun t => sdkMaximumAmountIn t.tradeType options.slippageTolerance
                    t.inputAmount.quotient) (sample :: rest) with
              | error e => simp [hP, hL, hM, hT] at h
              | ok totalIn =>
                simp [Except.map]

/-- One single-pool ExactInput v3 leg, repeated to exceed the trade-count
threshold. -/
def singlePoolV3Leg : SwapLeg :=
  ⟨⟨[.pool ⟨1, 10⟩ ⟨1, 11⟩ 3000 1], [⟨1, 10⟩, ⟨1, 11⟩],
      .token ⟨1, 10⟩, .token ⟨1, 11⟩, none⟩,
    ⟨.token ⟨1, 10⟩, 100⟩, ⟨.token ⟨1, 11⟩, 90⟩⟩

/-- A v3 trade with three swap legs, tripping the aggregated-slippage
custody heuristic. -/
def threeLegV3Trade : RTrade :=
  .v3 ⟨[singlePoolV3Leg, singlePoolV3Leg, singlePoolV3Leg], .exactInput⟩

theorem encodeSwaps_routerMustCustody_witness :
    (encodeSwaps [threeLegV3Trade] plainOptions false).map
        EncodeSwapsResult.routerMustCustody
      = .ok (threeLegV3Trade.outputAmount.currency.isNative
          || plainOptions.fee.isSome || false
          || (threeLegV3Trade.tradeType == .exactInput
              && decide (numberOfTrades [threeLegV3Trade] > 2))) :=
  encodeSwaps_routerMustCustody threeLegV3Trade [] plainOptions false (by decide)

theorem encodeMixedRouteToPath_reverse_roundTrip_witness :
    mixedLegW.route.pools ≠ []
    ∧ (encodeMixedRouteToPath mixedLegW.route false
          = interleavePath (walkTokens mixedLegW.route.input.wrapped mixedLegW.route.pools)
              (mixedLegW.route.pools.map TPool.pathFee)
        ∧ interleavePath
              (walkTokens mixedLegW.route.input.wrapped mixedLegW.route.pools).reverse
              ((mixedLegW.route.pools.map TPool.pathFee).reverse)
            = encodeMixedRouteToPath mixedLegW.route true) :=
  ⟨by decide, encodeMixedRouteToPath_reverse_roundTrip mixedLegW.route (by decide)⟩

theorem midPrice_memoized_witness :
    (singleHopMixedLeg.route.midPrice.2).midPriceCache
        = some singleHopMixedLeg.route.midPrice.1
    ∧ (singleHopMixedLeg.route.midPrice.2).midPrice
        = (singleHopMixedLeg.route.midPrice.1, singleHopMixedLeg.route.midPrice.2) :=
  midPrice_memoized [.pool ⟨1, 10⟩ ⟨1, 11⟩ 3000 1] (.token ⟨1, 10⟩) (.token ⟨1, 11⟩)
    singleHopMixedLeg.route (by decide)

end RouterSdk
